import Mathlib

set_option autoImplicit false

/-!
Verification of the enumerated value store with generation-based reclamation
(vespa: vespalib datastore + searchlib enum store).

The development shallowly embeds:
* `Datastore.trimElemHoldList` from
  `src/vespalib/src/vespa/vespalib/datastore/datastore.hpp` (hold-list trimming
  with signed wrap-around 64-bit generation comparison);
* `BufferAlloc` from `src/vespalib/src/vespa/vespalib/datastore/buffer_type.cpp`
  (`getReservedElements`, `onActive`, `calcArraysToAlloc`);
* `TensorStore.move` from
  `src/searchlib/src/vespa/searchlib/tensor/direct_tensor_store.cpp`;
* `EnumStoreModel` / `FoldedModel`: the enum store facade (insert, find_index,
  batch updater, freeze, folded lookup).  The enum store implementation files
  are not part of the sampled sources (only its test
  `src/searchlib/src/tests/attribute/enumstore/enumstore_test.cpp` and the
  interface `i_enum_store_dictionary.h` are), so those parts are modelled from
  the specification and the behavior asserted by the in-repo test.

Layout: all definitions first, then the supporting lemmas, then the claim
theorems and their witnesses.
-/

/-! ## Generic list helpers -/

/-- Positional lookup in a list (explicit recursion, used for arena slots). -/
def nth {α : Type _} : List α → Nat → Option α
  | [], _ => none
  | a :: _, 0 => some a
  | _ :: l, n + 1 => nth l n

/-- Replace the element at a position by applying `f` (no-op when out of range). -/
def modifyAt {α : Type _} (f : α → α) : List α → Nat → List α
  | [], _ => []
  | a :: l, 0 => f a :: l
  | a :: l, n + 1 => a :: modifyAt f l n

/-! ## Datastore hold lists
Embedded from `src/vespalib/src/vespa/vespalib/datastore/datastore.hpp`,
`DataStoreT<RefT>::trimElemHoldList` (lines 43-60). -/

namespace Datastore

/-- Modulus of the 64-bit unsigned generation counter. -/
def GEN_MOD : Nat := 2 ^ 64

/-- Half of the modulus: an unsigned difference below this bound is a
non-negative signed 64-bit number. -/
def GEN_HALF : Nat := 2 ^ 63

/-- The guard of the source loop:
`static_cast<sgeneration_t>(it->_generation - usedGen) >= 0`, i.e. the
wrap-around difference `generation - usedGen`, reduced mod 2^64 and read as a
signed 64-bit value, is non-negative.  When true the element is kept. -/
def sgen_nonneg (generation usedGen : Nat) : Bool :=
  decide ((generation % GEN_MOD + (GEN_MOD - usedGen % GEN_MOD)) % GEN_MOD < GEN_HALF)

/-- An element of `_elemHold2List`: a held entry reference, its element count
and the generation current when it was transferred to the hold list. -/
structure ElemHold2ListElem where
  ref : Nat
  len : Nat
  generation : Nat
deriving DecidableEq

/-- `DataStoreT::trimElemHoldList(usedGen)`: walk `_elemHold2List` from the
front, freeing elements (`free_elem_internal`) while the signed wrap-around
comparison says the element's generation is older than `usedGen`; stop at the
first element that is not older.  Returns (freed elements, remaining list). -/
def trimElemHoldList (usedGen : Nat) :
    List ElemHold2ListElem → List ElemHold2ListElem × List ElemHold2ListElem
  | [] => ([], [])
  | e :: rest =>
    if sgen_nonneg e.generation usedGen then ([], e :: rest)
    else (e :: (trimElemHoldList usedGen rest).1, (trimElemHoldList usedGen rest).2)

end Datastore

/-! ## Buffer types
Embedded from `src/vespalib/src/vespa/vespalib/datastore/buffer_type.cpp`. -/

namespace BufferAlloc

/-- State of `BufferTypeBase` relevant to allocation sizing. -/
structure BufferTypeBase where
  arraySize : Nat
  minArrays : Nat
  maxArrays : Nat
  activeUsedElems : Nat
  lastUsedElems : Option Nat
deriving DecidableEq

/-- `BufferTypeBase::getReservedElements` (lines 58-62): buffer 0 reserves one
whole array of elements, other buffers reserve none. -/
def getReservedElements (b : BufferTypeBase) (bufferId : Nat) : Nat :=
  if bufferId = 0 then b.arraySize else 0

/-- `BufferTypeBase::onActive` (lines 73-85), restricted to the used/dead
element accounting: when the buffer has reserved elements, the buffer's used
and dead element counters are both set to the reserved count; otherwise they
keep their incoming values. -/
def onActive (b : BufferTypeBase) (bufferId usedElems0 deadElems0 : Nat) : Nat × Nat :=
  let reservedElems := getReservedElements b bufferId
  if reservedElems ≠ 0 then (reservedElems, reservedElems) else (usedElems0, deadElems0)

/-- The `usedElems` local of `calcArraysToAlloc`:
`(resizing ? 0 : _activeUsedElems) + (*_lastUsedElems if set)`. -/
def usedElemsFor (b : BufferTypeBase) (resizing : Bool) : Nat :=
  (if resizing then 0 else b.activeUsedElems) + b.lastUsedElems.getD 0

/-- The `neededArrays` local of `calcArraysToAlloc`:
`(elemsNeeded + (resizing ? usedElems : reservedElems) + _arraySize - 1) / _arraySize`. -/
def neededArraysFor (b : BufferTypeBase) (bufferId elemsNeeded : Nat) (resizing : Bool) : Nat :=
  (elemsNeeded + (if resizing then usedElemsFor b resizing else getReservedElements b bufferId)
    + b.arraySize - 1) / b.arraySize

/-- `BufferTypeBase::calcArraysToAlloc` (lines 116-139).  The float
multiplication `usedArrays * _allocGrowFactor` (truncated to `size_t`) is kept
abstract as `growArraysOf`; none of the proved properties depend on its value.
The trailing `assert(result >= neededArrays)` is modelled by returning `none`
(process abort) when the assertion would fail. -/
def calcArraysToAlloc (b : BufferTypeBase) (growArraysOf : Nat → Nat)
    (bufferId elemsNeeded : Nat) (resizing : Bool) : Option Nat :=
  let usedElems := usedElemsFor b resizing
  let usedArrays := usedElems / b.arraySize
  let neededArrays := neededArraysFor b bufferId elemsNeeded resizing
  let growArrays := growArraysOf usedArrays
  let wantedArrays := max ((if resizing then usedArrays else 0) + growArrays) b.minArrays
  let result := if wantedArrays < neededArrays then neededArrays else wantedArrays
  let result2 := if b.maxArrays < result then b.maxArrays else result
  if result2 < neededArrays then none else some result2

/-- Modelled from the spec: `EntryRef` packing (the file `entryref.h` is not
among the sampled sources).  An `EntryRef` is `\x7b buffer_id, offset \x7d`
packed into a single integer, with the offset in the low `offsetBits` bits. -/
def packRef (offsetBits bufferId offset : Nat) : Nat :=
  bufferId * 2 ^ offsetBits + offset

/-- Modelled from the spec: a default-constructed `EntryRef` has packed value 0
and is invalid; any nonzero packed value is valid. -/
def refValid (packed : Nat) : Bool := packed != 0

/-- Modelled from the spec: allocating from a buffer returns a reference to the
first unused slot, i.e. the packed pair of the buffer id and the buffer's
current used element count (the arena is append-only). -/
def allocRef (offsetBits bufferId usedElems : Nat) : Nat :=
  packRef offsetBits bufferId usedElems

end BufferAlloc

/-! ## Direct tensor store
Embedded from `src/searchlib/src/vespa/searchlib/tensor/direct_tensor_store.cpp`.
A slot holds a tensor value and a held flag; references are 1-based so that the
packed value 0 is the invalid reference, as in the source (`ref.valid()`).
Allocation (`DataStore::addEntry`, whose allocator internals are not among the
sampled sources) is modelled from the spec as appending to the arena. -/

namespace TensorStore

/-- The tensor data store: one slot per stored tensor, `(value, held flag)`. -/
structure DTStore (T : Type) where
  slots : List (T × Bool)
deriving DecidableEq

/-- `_tensor_store.getEntry(ref)`: resolve a reference to its tensor value.
Reference 0 is invalid; slot for reference `r` is at position `r - 1`. -/
def getEntry {T : Type} (s : DTStore T) (r : Nat) : Option T :=
  if r = 0 then none else (nth s.slots (r - 1)).map Prod.fst

/-- The held flag of the slot a reference resolves to. -/
def heldAt {T : Type} (s : DTStore T) (r : Nat) : Option Bool :=
  if r = 0 then none else (nth s.slots (r - 1)).map Prod.snd

/-- `DirectTensorStore::add_entry`: allocate a fresh slot holding the tensor
and return its (1-based, hence nonzero) reference. -/
def add_entry {T : Type} (s : DTStore T) (v : T) : DTStore T × Nat :=
  (⟨s.slots ++ [(v, false)]⟩, s.slots.length + 1)

/-- `_tensor_store.holdElem(ref, 1, ...)`: mark the slot of `ref` as held
(pending generation-safe free); the stored value is untouched. -/
def holdElem {T : Type} (s : DTStore T) (r : Nat) : DTStore T :=
  ⟨modifyAt (fun p => (p.1, true)) s.slots (r - 1)⟩

/-- `DirectTensorStore::move(ref)` (lines 75-86): invalid refs map to the
invalid ref; otherwise copy the old tensor into a fresh slot, put the old slot
on hold, and return the new reference.  (An in-range reference is guaranteed by
the source's `assert(old_tensor)`; out-of-range lookup is modelled as the
invalid result.) -/
def move {T : Type} (s : DTStore T) (r : Nat) : DTStore T × Nat :=
  if r = 0 then (s, 0)
  else
    match nth s.slots (r - 1) with
    | none => (s, 0)
    | some p => (holdElem (add_entry s p.1).1 r, (add_entry s p.1).2)

/-- The compaction remap pass: apply `move` to each owner's stored reference in
turn (`ICompactionContext::compact` over the owners' refs), collecting the new
references in order. -/
def moveAll {T : Type} (s : DTStore T) : List Nat → DTStore T × List Nat
  | [] => (s, [])
  | r :: rs =>
    ((moveAll (move s r).1 rs).1, (move s r).2 :: (moveAll (move s r).1 rs).2)

end TensorStore

/-! ## Enum store
Modelled from the spec (sections 3, 4.3, 4.4, 4.5) and from the behavior
asserted by `src/searchlib/src/tests/attribute/enumstore/enumstore_test.cpp`:
the implementation files (`enumstore.hpp`, `enum_store_dictionary.cpp`,
`unique_store*.hpp`) are not among the sampled sources.  Hold-list trimming
reuses the embedded `Datastore.trimElemHoldList`, which is in the sources. -/

namespace EnumStoreModel

/-- A stored entry: the interned value, its reference count, and whether the
arena slot is still physically allocated (`live = false` once reclaimed). -/
structure Entry (T : Type) where
  value : T
  refCount : Nat
  live : Bool
deriving DecidableEq

/-- The enum store: an arena of entries (an `EntryRef` is a position in it),
the live dictionary, the last-frozen dictionary snapshot, an optional
supplementary hash index (present for the BTREE_AND_HASH dictionary variant,
kept in sync with the live dictionary), and the two hold lists. -/
structure EnumStore (T : Type) where
  arena : List (Entry T)
  liveDict : List Nat
  frozenDict : List Nat
  hashDict : Option (List Nat)
  hold1 : List Nat
  hold2 : List Datastore.ElemHold2ListElem
deriving DecidableEq

/-- A freshly constructed enum store; `withHash` selects the dictionary
variant (BTREE vs BTREE_AND_HASH). -/
def emptyStore (T : Type) (withHash : Bool) : EnumStore T :=
  ⟨[], [], [], if withHash then some [] else none, [], []⟩

/-- Dictionary search: scan the given key list, dereferencing each key back
into the arena and comparing the stored value to `v` with `eqf` (the
comparator); return the first match. -/
def findIn {T : Type} (eqf : T → T → Bool) (arena : List (Entry T)) (v : T) :
    List Nat → Option Nat
  | [] => none
  | r :: rs =>
    match nth arena r with
    | some e => if eqf e.value v then some r else findIn eqf arena v rs
    | none => findIn eqf arena v rs

/-- Comparator equality derived from decidable equality on the value type. -/
def beqOf {T : Type} [DecidableEq T] : T → T → Bool := fun a b => decide (a = b)

/-- `find_index` with an explicit comparator: exact match against the live
dictionary. -/
def find_index_by {T : Type} (eqf : T → T → Bool) (s : EnumStore T) (v : T) : Option Nat :=
  findIn eqf s.arena v s.liveDict

/-- `EnumStoreT::find_index(value)`: exact match against the live dictionary. -/
def find_index {T : Type} [DecidableEq T] (s : EnumStore T) (v : T) : Option Nat :=
  find_index_by beqOf s v

/-- `find_frozen_index` with an explicit comparator: the BTREE_AND_HASH
variant answers from the supplementary hash index (which tracks the live
dictionary), the BTREE variant from the last-frozen tree snapshot.  This
matches the in-repo test `find_frozen_index_works`. -/
def find_frozen_index_by {T : Type} (eqf : T → T → Bool) (s : EnumStore T) (v : T) :
    Option Nat :=
  match s.hashDict with
  | some h => findIn eqf s.arena v h
  | none => findIn eqf s.arena v s.frozenDict

/-- `IEnumStoreDictionary::find_frozen_index` through the store facade. -/
def find_frozen_index {T : Type} [DecidableEq T] (s : EnumStore T) (v : T) : Option Nat :=
  find_frozen_index_by beqOf s v

/-- `EnumStoreT::get_ref_count(idx)` (0 for an unallocated position). -/
def get_ref_count {T : Type} (s : EnumStore T) (r : Nat) : Nat :=
  match nth s.arena r with
  | some e => e.refCount
  | none => 0

/-- `EnumStoreT::get_value(idx)`: readable while the arena slot is still
physically allocated (live), regardless of ref count or dictionary state. -/
def get_value {T : Type} (s : EnumStore T) (r : Nat) : Option T :=
  match nth s.arena r with
  | some e => if e.live then some e.value else none
  | none => none

/-- Allocate a fresh arena entry with the given initial ref count. -/
def allocEntry {T : Type} (s : EnumStore T) (v : T) (rc : Nat) : EnumStore T × Nat :=
  ({ s with arena := s.arena ++ [⟨v, rc, true⟩] }, s.arena.length)

/-- Add a key to the live dictionary (and to the hash index when present). -/
def addToDicts {T : Type} (s : EnumStore T) (r : Nat) : EnumStore T :=
  { s with liveDict := s.liveDict ++ [r], hashDict := s.hashDict.map (· ++ [r]) }

/-- Remove a key from the live dictionary (and the hash index); the frozen
snapshot is untouched until the next freeze. -/
def removeFromDicts {T : Type} (s : EnumStore T) (r : Nat) : EnumStore T :=
  { s with liveDict := s.liveDict.filter (fun x => decide (x ≠ r)),
           hashDict := s.hashDict.map (List.filter (fun x => decide (x ≠ r))) }

/-- Increment an entry's ref count. -/
def inc_ref_count_store {T : Type} (s : EnumStore T) (r : Nat) : EnumStore T :=
  { s with arena := modifyAt (fun e => { e with refCount := e.refCount + 1 }) s.arena r }

/-- Decrement an entry's ref count. -/
def dec_ref_count_store {T : Type} (s : EnumStore T) (r : Nat) : EnumStore T :=
  { s with arena := modifyAt (fun e => { e with refCount := e.refCount - 1 }) s.arena r }

/-- Put an entry's arena slot on the first hold list. -/
def holdEntry {T : Type} (s : EnumStore T) (r : Nat) : EnumStore T :=
  { s with hold1 := s.hold1 ++ [r] }

/-- `EnumStoreT::insert(value)` (spec 4.4): if an equal value exists in the
live dictionary, increment its ref count and return its index; otherwise
allocate in the arena with ref count 1 and insert into the dictionary. -/
def insert {T : Type} [DecidableEq T] (s : EnumStore T) (v : T) : EnumStore T × Nat :=
  match find_index s v with
  | some r => (inc_ref_count_store s r, r)
  | none =>
    (addToDicts (allocEntry s v 1).1 (allocEntry s v 1).2, (allocEntry s v 1).2)

/-- `EnumStoreT::freeze_dictionary()`: publish the live dictionary as the new
frozen snapshot. -/
def freeze_dictionary {T : Type} (s : EnumStore T) : EnumStore T :=
  { s with frozenDict := s.liveDict }

/-- The batch updater: the store being mutated plus the set of indexes whose
ref count may have dropped to (or started at) zero, to be examined at commit. -/
structure BatchUpdater (T : Type) where
  store : EnumStore T
  staged : List Nat

/-- `EnumStoreT::make_batch_updater()`. -/
def make_batch_updater {T : Type} (s : EnumStore T) : BatchUpdater T := ⟨s, []⟩

/-- Record an index in the possibly-unused set (a set: no duplicates). -/
def stage (l : List Nat) (r : Nat) : List Nat := if r ∈ l then l else l ++ [r]

/-- `BatchUpdater::insert(value)`: return the existing index when the value is
already present; otherwise allocate with ref count 0, insert into the
dictionary, and remember the index as possibly unused. -/
def BatchUpdater.insert {T : Type} [DecidableEq T] (u : BatchUpdater T) (v : T) :
    BatchUpdater T × Nat :=
  match find_index u.store v with
  | some r => (u, r)
  | none =>
    (⟨addToDicts (allocEntry u.store v 0).1 (allocEntry u.store v 0).2,
      stage u.staged (allocEntry u.store v 0).2⟩,
     (allocEntry u.store v 0).2)

/-- `BatchUpdater::inc_ref_count(idx)`: applied directly to the entry. -/
def BatchUpdater.inc_ref_count {T : Type} (u : BatchUpdater T) (r : Nat) : BatchUpdater T :=
  ⟨inc_ref_count_store u.store r, u.staged⟩

/-- `BatchUpdater::dec_ref_count(idx)`: applied directly to the entry; the
index is remembered as possibly unused. -/
def BatchUpdater.dec_ref_count {T : Type} (u : BatchUpdater T) (r : Nat) : BatchUpdater T :=
  ⟨dec_ref_count_store u.store r, stage u.staged r⟩

/-- `BatchUpdater::commit()`: every possibly-unused index whose ref count is 0
is removed from the dictionary and its arena slot is put on hold (spec 4.5:
no zombie entries remain discoverable). -/
def BatchUpdater.commit {T : Type} (u : BatchUpdater T) : EnumStore T :=
  u.staged.foldl
    (fun s r => if get_ref_count s r = 0 then holdEntry (removeFromDicts s r) r else s)
    u.store

/-- `transfer_hold_lists(generation)` (spec 4.2): move the first hold list to
the second, tagging each element with the given generation. -/
def transfer_hold_lists {T : Type} (s : EnumStore T) (generation : Nat) : EnumStore T :=
  { s with hold1 := [],
           hold2 := s.hold2 ++ s.hold1.map (fun r => ⟨r, 1, generation⟩) }

/-- Physically reclaim the freed slots (mark them not live). -/
def markDead {T : Type} (arena : List (Entry T))
    (freed : List Datastore.ElemHold2ListElem) : List (Entry T) :=
  freed.foldl (fun a e => modifyAt (fun en => { en with live := false }) a e.ref) arena

/-- `trim_hold_lists(firstUsedGen)`: delegate to the embedded
`Datastore.trimElemHoldList` and physically reclaim the freed slots. -/
def trim_hold_lists {T : Type} (s : EnumStore T) (usedGen : Nat) : EnumStore T :=
  { s with arena := markDead s.arena (Datastore.trimElemHoldList usedGen s.hold2).1,
           hold2 := (Datastore.trimElemHoldList usedGen s.hold2).2 }

/-- Well-formedness: every dictionary key (live, frozen, hash) refers to an
allocated arena position. -/
def wfb {T : Type} (s : EnumStore T) : Bool :=
  s.liveDict.all (fun r => r < s.arena.length)
    && s.frozenDict.all (fun r => r < s.arena.length)
    && (match s.hashDict with
        | some h => h.all (fun r => r < s.arena.length)
        | none => true)

/-- Quiet NaN bit pattern of an IEEE-754 binary32 (0x7FC00000). -/
def nanBits32 : Nat := 0x7FC00000

/-- NaN test on a binary32 bit pattern: exponent all ones, mantissa nonzero. -/
def isNaN32 (bits : Nat) : Bool :=
  decide ((bits / 2 ^ 23) % 2 ^ 8 = 255 ∧ bits % 2 ^ 23 ≠ 0)

/-- IEEE-754 numeric equality on binary32 bit patterns: NaN compares unequal
to everything (itself included); +0 and -0 compare equal; otherwise two
finite/infinite values are equal exactly when their bit patterns are. -/
def float32_eq (a b : Nat) : Bool :=
  if isNaN32 a || isNaN32 b then false
  else if a % 2 ^ 31 = 0 && b % 2 ^ 31 = 0 then true
  else a == b

end EnumStoreModel

/-! ## Folded string dictionary
Modelled from the spec (section 4.3, `find_matching_folded`) and the in-repo
test `test_find_folded_on_string_enum_store`: the string dictionary is ordered
by the folded (ASCII case-lowered) value first and the raw byte string second;
a folded-match query collects, in dictionary order, every key whose folded
value equals the folded query.  Strings are represented as lists of ASCII byte
values. -/

namespace FoldedModel

/-- ASCII case folding of one byte: uppercase letters are lowered. -/
def foldByte (c : Nat) : Nat := if 65 ≤ c ∧ c ≤ 90 then c + 32 else c

/-- Case folding of a byte string. -/
def foldWord (s : List Nat) : List Nat := s.map foldByte

/-- Lexicographic strict order on byte strings. -/
def lexLt : List Nat → List Nat → Bool
  | [], [] => false
  | [], _ :: _ => true
  | _ :: _, [] => false
  | a :: as, b :: bs => if a < b then true else if b < a then false else lexLt as bs

/-- The dictionary comparator for string enum stores: folded value first, raw
value as tie break. -/
def keyLt (a b : List Nat) : Bool :=
  if lexLt (foldWord a) (foldWord b) then true
  else if lexLt (foldWord b) (foldWord a) then false
  else lexLt a b

/-- A string enum store: arena of byte strings, the live dictionary (keys kept
sorted by `keyLt` on the referenced values), and the frozen snapshot. -/
structure FoldedStore where
  arena : List (List Nat)
  dict : List Nat
  frozenDict : List Nat
deriving DecidableEq

/-- Resolve a dictionary key to its stored byte string. -/
def valueAt (arena : List (List Nat)) (r : Nat) : List Nat := (nth arena r).getD []

/-- Ordered dictionary insertion (the btree keeps keys sorted by the
comparator). -/
def dictInsert (arena : List (List Nat)) (r : Nat) : List Nat → List Nat
  | [] => [r]
  | x :: xs =>
    if keyLt (valueAt arena r) (valueAt arena x) then r :: x :: xs
    else x :: dictInsert arena r xs

/-- `insert(value)`: dedup via dictionary search, else allocate and insert in
comparator order. -/
def insert (s : FoldedStore) (v : List Nat) : FoldedStore × Nat :=
  match s.dict.find? (fun r => decide (valueAt s.arena r = v)) with
  | some r => (s, r)
  | none =>
    (⟨s.arena ++ [v], dictInsert (s.arena ++ [v]) s.arena.length s.dict, s.frozenDict⟩,
     s.arena.length)

/-- Insert a batch of values in order, discarding the returned indexes. -/
def insertAll (s : FoldedStore) : List (List Nat) → FoldedStore
  | [] => s
  | v :: vs => insertAll (insert s v).1 vs

/-- `freeze_dictionary()`: publish the live dictionary for readers. -/
def freeze (s : FoldedStore) : FoldedStore := ⟨s.arena, s.dict, s.dict⟩

/-- `find_folded_enums(value)`: all frozen-dictionary keys whose folded value
matches the folded query, in dictionary order. -/
def find_folded_enums (s : FoldedStore) (v : List Nat) : List Nat :=
  s.frozenDict.filter (fun r => decide (foldWord (valueAt s.arena r) = foldWord v))

/-- ASCII bytes of the empty string. -/
def strEmpty : List Nat := []

/-- ASCII bytes of "one". -/
def strOne : List Nat := [111, 110, 101]

/-- ASCII bytes of "two". -/
def strtwo : List Nat := [116, 119, 111]

/-- ASCII bytes of "TWO". -/
def strTWO : List Nat := [84, 87, 79]

/-- ASCII bytes of "Two". -/
def strTwo : List Nat := [84, 119, 111]

/-- ASCII bytes of "three". -/
def strThree : List Nat := [116, 104, 114, 101, 101]

/-- The store of the folded-lookup scenario: insert the six test strings in
test order, then freeze the dictionary. -/
def c8_store : FoldedStore :=
  freeze (insertAll ⟨[], [], []⟩ [strEmpty, strOne, strtwo, strTWO, strTwo, strThree])

end FoldedModel

/-! ## Supporting lemmas -/

theorem nth_eq_none_of_le {α : Type _} : ∀ (l : List α) (n : Nat), l.length ≤ n → nth l n = none
  | [], _, _ => rfl
  | _ :: l, n + 1, h => nth_eq_none_of_le l n (Nat.le_of_succ_le_succ h)

theorem nth_append_lt {α : Type _} :
    ∀ (l₁ l₂ : List α) (n : Nat), n < l₁.length → nth (l₁ ++ l₂) n = nth l₁ n
  | _ :: _, _, 0, _ => rfl
  | _ :: l₁, l₂, n + 1, h => nth_append_lt l₁ l₂ n (Nat.lt_of_succ_lt_succ h)

theorem nth_append_length {α : Type _} :
    ∀ (l₁ : List α) (a : α) (l₂ : List α), nth (l₁ ++ a :: l₂) l₁.length = some a
  | [], _, _ => rfl
  | _ :: l₁, a, l₂ => nth_append_length l₁ a l₂

theorem nth_is_some_of_lt {α : Type _} :
    ∀ (l : List α) (n : Nat), n < l.length → ∃ a, nth l n = some a
  | a :: _, 0, _ => ⟨a, rfl⟩
  | _ :: l, n + 1, h => nth_is_some_of_lt l n (Nat.lt_of_succ_lt_succ h)

theorem modifyAt_length {α : Type _} (f : α → α) :
    ∀ (l : List α) (n : Nat), (modifyAt f l n).length = l.length
  | [], _ => rfl
  | _ :: _, 0 => rfl
  | _ :: l, n + 1 => congrArg Nat.succ (modifyAt_length f l n)

theorem nth_modifyAt_eq {α : Type _} (f : α → α) :
    ∀ (l : List α) (n : Nat), nth (modifyAt f l n) n = (nth l n).map f
  | [], _ => rfl
  | _ :: _, 0 => rfl
  | _ :: l, n + 1 => nth_modifyAt_eq f l n

theorem nth_modifyAt_ne {α : Type _} (f : α → α) :
    ∀ (l : List α) (m n : Nat), m ≠ n → nth (modifyAt f l m) n = nth l n
  | [], _, _, _ => rfl
  | _ :: _, 0, 0, h => absurd rfl h
  | _ :: _, 0, _ + 1, _ => rfl
  | _ :: _, _ + 1, 0, _ => rfl
  | _ :: l, m + 1, n + 1, h =>
      nth_modifyAt_ne f l m n (fun hc => h (congrArg Nat.succ hc))

theorem modifyAt_append_length {α : Type _} (f : α → α) :
    ∀ (l : List α) (a : α), modifyAt f (l ++ [a]) l.length = l ++ [f a]
  | [], _ => rfl
  | b :: l, a => congrArg (b :: ·) (modifyAt_append_length f l a)

theorem filter_ne_append_self {l : List Nat} {r : Nat} (h : ∀ x ∈ l, x ≠ r) :
    (l ++ [r]).filter (fun x => decide (x ≠ r)) = l := by
  induction l with
  | nil => simp
  | cons a l ih =>
      have ha : a ≠ r := h a (by simp)
      simp only [List.cons_append, List.filter_cons, decide_eq_true_eq]
      rw [if_pos ha, ih (fun x hx => h x (by simp [hx]))]

namespace Datastore

theorem sgen_nonneg_self (g : Nat) : sgen_nonneg g g = true := by
  simp only [sgen_nonneg, GEN_MOD, GEN_HALF, decide_eq_true_eq]
  norm_num
  omega

theorem sgen_nonneg_succ_false (g : Nat) : sgen_nonneg g (g + 1) = false := by
  simp only [sgen_nonneg, GEN_MOD, GEN_HALF, decide_eq_false_iff_not]
  norm_num
  omega

end Datastore

/-! ## Claim C5 -/

namespace Datastore

/-- C5: `trimElemHoldList(firstUsedGeneration)` physically frees exactly the
held elements whose tagged generation is strictly older than the bound, where
older is decided by the signed wrap-around comparison of the 64-bit
generations, and leaves every held element whose tagged generation is at or
after the bound untouched.  The hypothesis captures the invariant under which
the hold list is built (`transferElemHoldList` appends in generation order):
every element following a kept element is also kept. -/
theorem trimElemHoldList_frees_exactly_older (u : Nat) (l : List ElemHold2ListElem)
    (hsorted : l.Pairwise
      (fun a b => sgen_nonneg a.generation u = true → sgen_nonneg b.generation u = true)) :
    (trimElemHoldList u l).1 = l.filter (fun e => !sgen_nonneg e.generation u)
    ∧ (trimElemHoldList u l).2 = l.filter (fun e => sgen_nonneg e.generation u) := by
  induction l with
  | nil => exact ⟨rfl, rfl⟩
  | cons e rest ih =>
      rcases List.pairwise_cons.mp hsorted with ⟨he, hrest⟩
      by_cases hk : sgen_nonneg e.generation u = true
      · have hall : ∀ x ∈ rest, sgen_nonneg x.generation u = true :=
          fun x hx => he x hx hk
        have ht1 : (trimElemHoldList u (e :: rest)).1 = [] := by
          simp [trimElemHoldList, hk]
        have ht2 : (trimElemHoldList u (e :: rest)).2 = e :: rest := by
          simp [trimElemHoldList, hk]
        constructor
        · rw [ht1]
          symm
          rw [List.filter_eq_nil_iff]
          intro a ha
          rcases List.mem_cons.mp ha with h | h
          · subst h; simp [hk]
          · simp [hall a h]
        · rw [ht2]
          symm
          rw [List.filter_eq_self]
          intro a ha
          rcases List.mem_cons.mp ha with h | h
          · subst h; exact hk
          · exact hall a h
      · have hkf : sgen_nonneg e.generation u = false := by
          cases h : sgen_nonneg e.generation u
          · rfl
          · exact absurd h hk
        rcases ih hrest with ⟨ih1, ih2⟩
        constructor
        · simp [trimElemHoldList, hkf, List.filter_cons, ih1]
        · simp [trimElemHoldList, hkf, List.filter_cons, ih2]

/-- Witness for C5: a concrete hold list satisfying the generation-order
hypothesis, evaluated at a concrete trim bound. -/
theorem trimElemHoldList_frees_exactly_older_witness :
    (([⟨7, 1, 5⟩, ⟨9, 1, 12⟩, ⟨11, 1, 13⟩] : List ElemHold2ListElem).Pairwise
      (fun a b => sgen_nonneg a.generation 10 = true → sgen_nonneg b.generation 10 = true))
    ∧ ((trimElemHoldList 10 [⟨7, 1, 5⟩, ⟨9, 1, 12⟩, ⟨11, 1, 13⟩]).1
        = ([⟨7, 1, 5⟩, ⟨9, 1, 12⟩, ⟨11, 1, 13⟩] : List ElemHold2ListElem).filter
            (fun e => !sgen_nonneg e.generation 10)
       ∧ (trimElemHoldList 10 [⟨7, 1, 5⟩, ⟨9, 1, 12⟩, ⟨11, 1, 13⟩]).2
        = ([⟨7, 1, 5⟩, ⟨9, 1, 12⟩, ⟨11, 1, 13⟩] : List ElemHold2ListElem).filter
            (fun e => sgen_nonneg e.generation 10)) :=
  ⟨by decide, trimElemHoldList_frees_exactly_older 10 _ (by decide)⟩

end Datastore

/-! ## Claims C9 and C10 -/

namespace BufferAlloc

/-- Closed form of the clamp sequence at the end of `calcArraysToAlloc`:
`result = max(wanted, needed)` clamped to `maxArrays`, with the trailing
assertion turning a clamp below `needed` into an abort. -/
theorem ifClamp_eq (w n m : Nat) :
    (if (if m < (if w < n then n else w) then m else (if w < n then n else w)) < n
        then (none : Option Nat)
        else some (if m < (if w < n then n else w) then m else (if w < n then n else w)))
      = if m < n then (none : Option Nat) else some (min m (max w n)) := by
  rcases Nat.lt_or_ge w n with h1 | h1 <;> rcases Nat.lt_or_ge m n with h2 | h2 <;>
    split_ifs <;> first | rfl | (exfalso; omega) | (congr 1; omega)

/-- `calcArraysToAlloc` in closed form. -/
theorem calcArraysToAlloc_eq (b : BufferTypeBase) (growArraysOf : Nat → Nat)
    (bufferId elemsNeeded : Nat) (resizing : Bool) :
    calcArraysToAlloc b growArraysOf bufferId elemsNeeded resizing
      = if b.maxArrays < neededArraysFor b bufferId elemsNeeded resizing then none
        else some (min b.maxArrays
          (max (max ((if resizing then usedElemsFor b resizing / b.arraySize else 0)
                + growArraysOf (usedElemsFor b resizing / b.arraySize)) b.minArrays)
            (neededArraysFor b bufferId elemsNeeded resizing))) :=
  ifClamp_eq _ _ _

/-- Bounds of the clamp-with-abort shape, over plain naturals. -/
theorem clamp_bounds (w n m : Nat) :
    (∀ r, (if m < n then (none : Option Nat) else some (min m (max w n))) = some r →
        n ≤ r ∧ r ≤ m)
    ∧ (n ≤ m → ∃ r, (if m < n then (none : Option Nat) else some (min m (max w n))) = some r)
    ∧ (m < n → (if m < n then (none : Option Nat) else some (min m (max w n))) = none) := by
  rcases Nat.lt_or_ge m n with h | h
  · refine ⟨fun r hr => ?_, fun hle => absurd hle (by omega), fun _ => if_pos h⟩
    rw [if_pos h] at hr
    exact absurd hr (by simp)
  · refine ⟨fun r hr => ?_, fun _ => ⟨_, if_neg (by omega)⟩, fun hlt => absurd hlt (by omega)⟩
    rw [if_neg (by omega)] at hr
    injection hr with hr1
    subst hr1
    exact ⟨Nat.le_min.mpr ⟨h, Nat.le_max_right w n⟩, Nat.min_le_left _ _⟩

/-- C9: the buffer-size computation `calcArraysToAlloc` never returns more
than the configured `maxArrays` bound, always returns at least the number of
arrays needed for the requested allocation, and when the need exceeds the
bound the operation fails fatally (the source's `assert(result >=
neededArrays)` fires, modelled as `none`) instead of returning a too-small
allocation. -/
theorem calcArraysToAlloc_bounds (b : BufferTypeBase) (growArraysOf : Nat → Nat)
    (bufferId elemsNeeded : Nat) (resizing : Bool) :
    (∀ r, calcArraysToAlloc b growArraysOf bufferId elemsNeeded resizing = some r →
        neededArraysFor b bufferId elemsNeeded resizing ≤ r ∧ r ≤ b.maxArrays)
    ∧ (neededArraysFor b bufferId elemsNeeded resizing ≤ b.maxArrays →
        ∃ r, calcArraysToAlloc b growArraysOf bufferId elemsNeeded resizing = some r)
    ∧ (b.maxArrays < neededArraysFor b bufferId elemsNeeded resizing →
        calcArraysToAlloc b growArraysOf bufferId elemsNeeded resizing = none) := by
  simp only [calcArraysToAlloc_eq]
  exact clamp_bounds _ _ _

/-- Witness for C9: concrete buffer-type state where the need exceeds the
max-arrays bound, so the computation aborts. -/
theorem calcArraysToAlloc_bounds_witness :
    (⟨4, 2, 8, 0, none⟩ : BufferTypeBase).maxArrays
        < neededArraysFor ⟨4, 2, 8, 0, none⟩ 0 100 false
    ∧ calcArraysToAlloc ⟨4, 2, 8, 0, none⟩ (fun n => n / 5) 0 100 false = none :=
  ⟨by decide,
   (calcArraysToAlloc_bounds ⟨4, 2, 8, 0, none⟩ (fun n => n / 5) 0 100 false).2.2 (by decide)⟩

/-- C10: buffer 0 reserves its first array of slots, which are counted as both
used and dead from activation (so a fresh store with array size 1 reports one
used and one dead element); a default-constructed `EntryRef` (packed value 0)
is invalid; and no allocation ever returns a reference whose packed value is
0, since an allocation offset is at least the buffer's reserved element count
and buffer ids above 0 contribute a nonzero high part. -/
theorem reserved_first_array_and_no_zero_ref (b : BufferTypeBase) (offsetBits : Nat)
    (h1 : 1 ≤ b.arraySize) :
    onActive b 0 0 0 = (b.arraySize, b.arraySize)
    ∧ refValid 0 = false
    ∧ ∀ bufferId usedElems, getReservedElements b bufferId ≤ usedElems →
        refValid (allocRef offsetBits bufferId usedElems) = true := by
  refine ⟨?_, rfl, ?_⟩
  · have hne : b.arraySize ≠ 0 := by omega
    simp [onActive, getReservedElements, hne]
  · intro bufferId usedElems hres
    simp only [refValid, allocRef, packRef, bne_iff_ne, ne_eq]
    rcases Nat.eq_zero_or_pos bufferId with h0 | hpos
    · subst h0
      simp [getReservedElements] at hres
      omega
    · have hpow : 0 < 2 ^ offsetBits := Nat.pos_pow_of_pos offsetBits (by omega)
      have hmul : 0 < bufferId * 2 ^ offsetBits := Nat.mul_pos hpos hpow
      omega

/-- Witness for C10: the enum store's numeric buffer type has array size 1;
activation of buffer 0 reports one used and one dead element, and allocating
the next slot of buffer 0 yields a valid (nonzero) reference. -/
theorem reserved_first_array_and_no_zero_ref_witness :
    1 ≤ (⟨1, 4, 128, 0, none⟩ : BufferTypeBase).arraySize
    ∧ onActive ⟨1, 4, 128, 0, none⟩ 0 0 0 = (1, 1)
    ∧ refValid 0 = false
    ∧ refValid (allocRef 22 0 1) = true := by
  have h := reserved_first_array_and_no_zero_ref ⟨1, 4, 128, 0, none⟩ 22 (by decide)
  exact ⟨by decide, h.1, h.2.1, h.2.2 0 1 (by decide)⟩

end BufferAlloc

/-! ## Claim C6 -/

namespace TensorStore

theorem getEntry_holdElem {T : Type} (s : DTStore T) (rr rq : Nat) :
    getEntry (holdElem s rr) rq = getEntry s rq := by
  unfold getEntry holdElem
  by_cases h0 : rq = 0
  · simp [h0]
  · simp only [if_neg h0]
    by_cases he : rr - 1 = rq - 1
    · rw [← he, nth_modifyAt_eq]
      cases nth s.slots (rr - 1) <;> rfl
    · rw [nth_modifyAt_ne _ _ _ _ he]

theorem getEntry_append {T : Type} (s : DTStore T) (x : T × Bool) (rq : Nat)
    (h : rq ≤ s.slots.length) :
    getEntry (⟨s.slots ++ [x]⟩ : DTStore T) rq = getEntry s rq := by
  unfold getEntry
  by_cases h0 : rq = 0
  · simp [h0]
  · simp only [if_neg h0]
    rw [nth_append_lt _ _ _ (by omega)]

theorem length_move {T : Type} (s : DTStore T) (r : Nat) :
    s.slots.length ≤ (move s r).1.slots.length := by
  unfold move
  by_cases h0 : r = 0
  · simp [h0]
  · simp only [if_neg h0]
    cases hx : nth s.slots (r - 1) with
    | none => exact Nat.le_refl _
    | some p =>
        show s.slots.length ≤ (holdElem (add_entry s p.1).1 r).slots.length
        simp [holdElem, add_entry, modifyAt_length]

theorem getEntry_move_of_le {T : Type} (s : DTStore T) (r rq : Nat)
    (h : rq ≤ s.slots.length) :
    getEntry (move s r).1 rq = getEntry s rq := by
  unfold move
  by_cases h0 : r = 0
  · simp [h0]
  · simp only [if_neg h0]
    cases hx : nth s.slots (r - 1) with
    | none => rfl
    | some p =>
        show getEntry (holdElem (add_entry s p.1).1 r) rq = getEntry s rq
        rw [getEntry_holdElem]
        exact getEntry_append s (p.1, false) rq h

theorem getEntry_moveAll_of_le {T : Type} :
    ∀ (os : List Nat) (s : DTStore T) (rq : Nat), rq ≤ s.slots.length →
      getEntry (moveAll s os).1 rq = getEntry s rq
  | [], _, _, _ => rfl
  | r :: rs, s, rq, h => by
      show getEntry (moveAll (move s r).1 rs).1 rq = getEntry s rq
      rw [getEntry_moveAll_of_le rs (move s r).1 rq (Nat.le_trans h (length_move s r)),
        getEntry_move_of_le s r rq h]

theorem move_spec {T : Type} (s : DTStore T) (r : Nat) (h1 : 1 ≤ r)
    (h2 : r ≤ s.slots.length) :
    (move s r).2 = s.slots.length + 1
    ∧ (move s r).1.slots.length = s.slots.length + 1
    ∧ getEntry (move s r).1 (move s r).2 = getEntry s r
    ∧ getEntry (move s r).1 r = getEntry s r
    ∧ heldAt (move s r).1 r = some true := by
  have h0 : r ≠ 0 := by omega
  rcases nth_is_some_of_lt s.slots (r - 1) (by omega) with ⟨p, hp⟩
  rcases p with ⟨v, fl⟩
  have hm : move s r = (holdElem (add_entry s v).1 r, s.slots.length + 1) := by
    unfold move
    rw [if_neg h0, hp]
    rfl
  refine ⟨by rw [hm], ?_, ?_, ?_, ?_⟩
  · rw [hm]
    show (holdElem (add_entry s v).1 r).slots.length = s.slots.length + 1
    simp [holdElem, add_entry, modifyAt_length]
  · rw [hm]
    show getEntry (holdElem (add_entry s v).1 r) (s.slots.length + 1) = getEntry s r
    rw [getEntry_holdElem]
    show getEntry (⟨s.slots ++ [(v, false)]⟩ : DTStore T) (s.slots.length + 1) = getEntry s r
    unfold getEntry
    rw [if_neg (by omega : ¬ s.slots.length + 1 = 0), if_neg h0, hp]
    have hlen : s.slots.length + 1 - 1 = s.slots.length := by omega
    rw [hlen, show s.slots ++ [(v, false)] = s.slots ++ (v, false) :: [] from rfl,
      nth_append_length]
    rfl
  · rw [hm]
    show getEntry (holdElem (add_entry s v).1 r) r = getEntry s r
    rw [getEntry_holdElem]
    exact getEntry_append s (v, false) r h2
  · rw [hm]
    show heldAt (holdElem (add_entry s v).1 r) r = some true
    unfold heldAt holdElem
    rw [if_neg h0, nth_modifyAt_eq]
    show Option.map Prod.snd
        (Option.map (fun p => (p.1, true)) (nth (s.slots ++ [(v, false)]) (r - 1)))
      = some true
    rw [nth_append_lt _ _ _ (by omega : r - 1 < s.slots.length), hp]
    rfl

theorem forall2_congr_left {α β : Type _} {R S : α → β → Prop} :
    ∀ {l1 : List α} {l2 : List β}, List.Forall₂ R l1 l2 →
      (∀ a ∈ l1, ∀ b, R a b → S a b) → List.Forall₂ S l1 l2 := by
  intro l1 l2 h
  induction h with
  | nil => exact fun _ => List.Forall₂.nil
  | cons hab htail ih =>
      intro himp
      exact List.Forall₂.cons (himp _ (by simp) _ hab)
        (ih (fun a ha b hr => himp a (by simp [ha]) b hr))

theorem moveAll_forall2 {T : Type} :
    ∀ (os : List Nat) (s : DTStore T),
      (∀ x ∈ os, 1 ≤ x ∧ x ≤ s.slots.length) →
      List.Forall₂ (fun old newr => getEntry (moveAll s os).1 newr = getEntry s old)
        os (moveAll s os).2
  | [], _, _ => List.Forall₂.nil
  | r :: rs, s, hb => by
      rcases hb r (by simp) with ⟨hr1, hr2⟩
      have hms := move_spec s r hr1 hr2
      have hbounds : ∀ x ∈ rs, 1 ≤ x ∧ x ≤ (move s r).1.slots.length := by
        intro x hx
        rcases hb x (by simp [hx]) with ⟨hx1, hx2⟩
        exact ⟨hx1, Nat.le_trans hx2 (length_move s r)⟩
      have htail := moveAll_forall2 rs (move s r).1 hbounds
      show List.Forall₂
        (fun old newr => getEntry (moveAll (move s r).1 rs).1 newr = getEntry s old)
        (r :: rs) ((move s r).2 :: (moveAll (move s r).1 rs).2)
      refine List.Forall₂.cons ?_ ?_
      · rw [getEntry_moveAll_of_le rs (move s r).1 (move s r).2
          (by rw [hms.1, hms.2.1])]
        exact hms.2.2.1
      · refine forall2_congr_left htail ?_
        intro a ha b hr
        rw [hr]
        exact getEntry_move_of_le s r a (hb a (by simp [ha])).2

/-- C6: for a live entry at a valid reference, the compaction relocation
`move` returns a new valid reference, distinct from the old one, that resolves
via the store to the same content as before; the old slot is put on hold (its
held flag is set, its value still resolvable) rather than immediately freed;
and after the remap pass over any list of in-range owner references, every
owner's reference, once remapped, resolves to exactly its pre-compaction
content. -/
theorem move_and_remap_preserve_content {T : Type} (s : DTStore T) (r : Nat)
    (owners : List Nat) (h1 : 1 ≤ r) (h2 : r ≤ s.slots.length)
    (hown : ∀ x ∈ owners, 1 ≤ x ∧ x ≤ s.slots.length) :
    ((move s r).2 ≠ r
      ∧ (move s r).2 ≠ 0
      ∧ getEntry (move s r).1 (move s r).2 = getEntry s r
      ∧ getEntry (move s r).1 r = getEntry s r
      ∧ heldAt (move s r).1 r = some true)
    ∧ List.Forall₂ (fun old newr => getEntry (moveAll s owners).1 newr = getEntry s old)
        owners (moveAll s owners).2 := by
  have hms := move_spec s r h1 h2
  refine ⟨⟨?_, ?_, hms.2.2.1, hms.2.2.2.1, hms.2.2.2.2⟩, moveAll_forall2 owners s hown⟩
  · rw [hms.1]; omega
  · rw [hms.1]; omega

/-- Witness for C6, at a concrete two-slot store with two owners. -/
theorem move_and_remap_preserve_content_witness :
    (1 ≤ 1 ∧ 1 ≤ (⟨[(10, false), (20, false)]⟩ : DTStore Nat).slots.length
      ∧ ∀ x ∈ [1, 2], 1 ≤ x ∧ x ≤ (⟨[(10, false), (20, false)]⟩ : DTStore Nat).slots.length)
    ∧ (move (⟨[(10, false), (20, false)]⟩ : DTStore Nat) 1).2 ≠ 1
    ∧ getEntry (move (⟨[(10, false), (20, false)]⟩ : DTStore Nat) 1).1
        (move (⟨[(10, false), (20, false)]⟩ : DTStore Nat) 1).2
      = getEntry (⟨[(10, false), (20, false)]⟩ : DTStore Nat) 1
    ∧ List.Forall₂ (fun old newr =>
        getEntry (moveAll (⟨[(10, false), (20, false)]⟩ : DTStore Nat) [1, 2]).1 newr
          = getEntry (⟨[(10, false), (20, false)]⟩ : DTStore Nat) old)
        [1, 2] (moveAll (⟨[(10, false), (20, false)]⟩ : DTStore Nat) [1, 2]).2 := by
  have h := move_and_remap_preserve_content (⟨[(10, false), (20, false)]⟩ : DTStore Nat)
    1 [1, 2] (by decide) (by decide) (by decide)
  exact ⟨⟨by decide, by decide, by decide⟩, h.1.1, h.1.2.2.1, h.2⟩

end TensorStore

/-! ## Enum store lemmas -/

namespace EnumStoreModel

theorem findIn_arena_append {T : Type} (eqf : T → T → Bool)
    (arena ext : List (Entry T)) (v : T) :
    ∀ (d : List Nat), (∀ r ∈ d, r < arena.length) →
      findIn eqf (arena ++ ext) v d = findIn eqf arena v d
  | [], _ => rfl
  | r :: rs, hb => by
      have hr : r < arena.length := hb r (by simp)
      have ih := findIn_arena_append eqf arena ext v rs (fun x hx => hb x (by simp [hx]))
      simp only [findIn, nth_append_lt _ _ _ hr]
      cases nth arena r with
      | none => exact ih
      | some e => by_cases hc : eqf e.value v <;> simp [hc, ih]

theorem findIn_arena_modify {T : Type} (eqf : T → T → Bool) (f : Entry T → Entry T)
    (hf : ∀ e, (f e).value = e.value) (arena : List (Entry T)) (m : Nat) (v : T) :
    ∀ (d : List Nat), findIn eqf (modifyAt f arena m) v d = findIn eqf arena v d
  | [] => rfl
  | r :: rs => by
      have ih := findIn_arena_modify eqf f hf arena m v rs
      by_cases he : m = r
      · subst he
        simp only [findIn, nth_modifyAt_eq]
        cases nth arena m with
        | none => exact ih
        | some e =>
            show (if eqf (f e).value v = true then some m
                else findIn eqf (modifyAt f arena m) v rs)
              = if eqf e.value v = true then some m else findIn eqf arena v rs
            rw [hf e]
            by_cases hc : eqf e.value v <;> simp [hc, ih]
      · simp only [findIn, nth_modifyAt_ne _ _ _ _ he]
        cases nth arena r with
        | none => exact ih
        | some e => by_cases hc : eqf e.value v <;> simp [hc, ih]

theorem findIn_append_dict_none {T : Type} (eqf : T → T → Bool)
    (arena : List (Entry T)) (v : T) :
    ∀ (d1 d2 : List Nat), findIn eqf arena v d1 = none →
      findIn eqf arena v (d1 ++ d2) = findIn eqf arena v d2
  | [], _, _ => by simp
  | r :: rs, d2, h => by
      revert h
      simp only [findIn, List.cons_append]
      cases nth arena r with
      | none => exact findIn_append_dict_none eqf arena v rs d2
      | some e =>
          by_cases hc : eqf e.value v
          · simp [hc]
          · simp only [hc, if_false]
            exact findIn_append_dict_none eqf arena v rs d2

theorem findIn_filter_none {T : Type} (eqf : T → T → Bool)
    (arena : List (Entry T)) (v : T) (p : Nat → Bool) :
    ∀ (d : List Nat), findIn eqf arena v d = none →
      findIn eqf arena v (d.filter p) = none
  | [], _ => rfl
  | r :: rs, h => by
      revert h
      simp only [findIn, List.filter_cons]
      cases hx : nth arena r with
      | none =>
          intro h
          by_cases hp : p r <;>
            simp only [hp, if_true, if_false, findIn, hx] <;>
            exact findIn_filter_none eqf arena v p rs h
      | some e =>
          by_cases hc : eqf e.value v
          · simp [hc]
          · simp only [hc, if_false]
            intro h
            by_cases hp : p r <;>
              simp only [hp, if_true, if_false, findIn, hx, hc] <;>
              exact findIn_filter_none eqf arena v p rs h

theorem wfb_live {T : Type} {s : EnumStore T} (h : wfb s = true) :
    ∀ r ∈ s.liveDict, r < s.arena.length := by
  intro r hr
  simp only [wfb, Bool.and_eq_true, List.all_eq_true, decide_eq_true_eq] at h
  exact h.1.1 r hr

theorem wfb_frozen {T : Type} {s : EnumStore T} (h : wfb s = true) :
    ∀ r ∈ s.frozenDict, r < s.arena.length := by
  intro r hr
  simp only [wfb, Bool.and_eq_true, List.all_eq_true, decide_eq_true_eq] at h
  exact h.1.2 r hr

theorem wfb_hash {T : Type} {s : EnumStore T} (h : wfb s = true) :
    ∀ (hd : List Nat), s.hashDict = some hd → ∀ r ∈ hd, r < s.arena.length := by
  intro hd hhd r hr
  simp only [wfb, Bool.and_eq_true, List.all_eq_true] at h
  rcases h with ⟨-, h2⟩
  rw [hhd] at h2
  simp only [List.all_eq_true, decide_eq_true_eq] at h2
  exact h2 r hr

theorem findIn_last {T : Type} [DecidableEq T] (arena : List (Entry T)) (v : T)
    (rc : Nat) (live : Bool) :
    findIn beqOf (arena ++ [⟨v, rc, live⟩]) v [arena.length] = some arena.length := by
  simp only [findIn]
  rw [show arena ++ [(⟨v, rc, live⟩ : Entry T)] = arena ++ ⟨v, rc, live⟩ :: [] from rfl,
    nth_append_length]
  simp [beqOf]

/-- After allocating a fresh entry for an absent value and adding it to the
dictionaries, `find_index` returns the fresh index. -/
theorem find_index_after_alloc {T : Type} [DecidableEq T] (s : EnumStore T) (v : T)
    (rc : Nat) (hlive : ∀ r ∈ s.liveDict, r < s.arena.length)
    (habs : find_index s v = none) :
    find_index (addToDicts (allocEntry s v rc).1 (allocEntry s v rc).2) v
      = some s.arena.length := by
  unfold find_index find_index_by at habs ⊢
  show findIn beqOf (s.arena ++ [⟨v, rc, true⟩]) v (s.liveDict ++ [s.arena.length])
    = some s.arena.length
  have h1 : findIn beqOf (s.arena ++ [⟨v, rc, true⟩]) v s.liveDict = none := by
    rw [findIn_arena_append beqOf s.arena _ v s.liveDict hlive]
    exact habs
  rw [findIn_append_dict_none beqOf _ v s.liveDict [s.arena.length] h1]
  exact findIn_last s.arena v rc true

end EnumStoreModel

/-! ## Claims C1 and C4 -/

namespace EnumStoreModel

/-- `insert` on a missing value allocates with ref count 1. -/
theorem insert_eq_not_found {T : Type} [DecidableEq T] (s : EnumStore T) (v : T)
    (h : find_index s v = none) :
    insert s v
      = (addToDicts (allocEntry s v 1).1 (allocEntry s v 1).2, (allocEntry s v 1).2) := by
  unfold insert
  rw [h]

/-- `insert` on a present value increments its ref count. -/
theorem insert_eq_found {T : Type} [DecidableEq T] (s : EnumStore T) (v : T) (r : Nat)
    (h : find_index s v = some r) :
    insert s v = (inc_ref_count_store s r, r) := by
  unfold insert
  rw [h]

/-- C1: dedup invariant.  For a well-formed store in which the value is not
yet interned, inserting it twice returns the same index both times, and after
the second insert the ref count of that index is 2 (first insert allocates
with ref count 1, second finds the equal value and increments). -/
theorem insert_dedup {T : Type} [DecidableEq T] (s : EnumStore T) (v : T)
    (hwf : wfb s = true) (habs : find_index s v = none) :
    (insert (insert s v).1 v).2 = (insert s v).2
    ∧ get_ref_count (insert (insert s v).1 v).1 ((insert s v).2) = 2 := by
  have hlive := wfb_live hwf
  have h1 : insert s v
      = (addToDicts (allocEntry s v 1).1 (allocEntry s v 1).2, (allocEntry s v 1).2) :=
    insert_eq_not_found s v habs
  have h2 : find_index (insert s v).1 v = some s.arena.length := by
    rw [h1]
    exact find_index_after_alloc s v 1 hlive habs
  have h3 : insert (insert s v).1 v
      = (inc_ref_count_store (insert s v).1 s.arena.length, s.arena.length) :=
    insert_eq_found (insert s v).1 v s.arena.length h2
  constructor
  · rw [h3, h1]
    rfl
  · rw [h3, h1]
    show get_ref_count
        (inc_ref_count_store (addToDicts (allocEntry s v 1).1 (allocEntry s v 1).2)
          s.arena.length) s.arena.length = 2
    have harena : (inc_ref_count_store (addToDicts (allocEntry s v 1).1 (allocEntry s v 1).2)
        s.arena.length).arena = s.arena ++ [⟨v, 2, true⟩] := by
      show modifyAt (fun e => { e with refCount := e.refCount + 1 })
          (s.arena ++ [⟨v, 1, true⟩]) s.arena.length = s.arena ++ [⟨v, 2, true⟩]
      rw [modifyAt_append_length]
    unfold get_ref_count
    rw [harena, show s.arena ++ [(⟨v, 2, true⟩ : Entry T)]
        = s.arena ++ ⟨v, 2, true⟩ :: [] from rfl, nth_append_length]

/-- Witness for C1 at a concrete fresh store and value. -/
theorem insert_dedup_witness :
    (wfb (emptyStore Int false) = true ∧ find_index (emptyStore Int false) 7 = none)
    ∧ ((insert (insert (emptyStore Int false) 7).1 7).2 = (insert (emptyStore Int false) 7).2
       ∧ get_ref_count (insert (insert (emptyStore Int false) 7).1 7).1
           ((insert (emptyStore Int false) 7).2) = 2) :=
  ⟨⟨by decide, by decide⟩, insert_dedup (emptyStore Int false) 7 (by decide) (by decide)⟩

/-- C4: a value staged via `BatchUpdater.insert` whose ref count is still 0 at
`commit()` is removed at commit: afterwards `find_index` on the value fails
and `get_ref_count` on the assigned index is 0, so no zombie entry remains
discoverable. -/
theorem unused_new_value_is_removed {T : Type} [DecidableEq T] (s : EnumStore T) (v : T)
    (hwf : wfb s = true) (habs : find_index s v = none) :
    find_index (BatchUpdater.commit (BatchUpdater.insert (make_batch_updater s) v).1) v = none
    ∧ get_ref_count (BatchUpdater.commit (BatchUpdater.insert (make_batch_updater s) v).1)
        ((BatchUpdater.insert (make_batch_updater s) v).2) = 0 := by
  have hlive := wfb_live hwf
  have h1 : BatchUpdater.insert (make_batch_updater s) v
      = (⟨addToDicts (allocEntry s v 0).1 s.arena.length, [s.arena.length]⟩,
         s.arena.length) := by
    unfold BatchUpdater.insert make_batch_updater
    rw [habs]
    rfl
  have hrc : get_ref_count (addToDicts (allocEntry s v 0).1 s.arena.length)
      s.arena.length = 0 := by
    unfold get_ref_count
    show (match nth (s.arena ++ [⟨v, 0, true⟩]) s.arena.length with
          | some e => e.refCount
          | none => 0) = 0
    rw [show s.arena ++ [(⟨v, 0, true⟩ : Entry T)] = s.arena ++ ⟨v, 0, true⟩ :: [] from rfl,
      nth_append_length]
  have h2 : BatchUpdater.commit (BatchUpdater.insert (make_batch_updater s) v).1
      = holdEntry
          (removeFromDicts (addToDicts (allocEntry s v 0).1 s.arena.length) s.arena.length)
          s.arena.length := by
    rw [h1]
    simp only [BatchUpdater.commit, List.foldl_cons, List.foldl_nil]
    rw [if_pos hrc]
  have hfilter : (s.liveDict ++ [s.arena.length]).filter
      (fun x => decide (x ≠ s.arena.length)) = s.liveDict :=
    filter_ne_append_self (fun x hx => by have := hlive x hx; omega)
  constructor
  · rw [h2]
    show findIn beqOf (s.arena ++ [⟨v, 0, true⟩]) v
        ((s.liveDict ++ [s.arena.length]).filter (fun x => decide (x ≠ s.arena.length)))
      = none
    rw [hfilter, findIn_arena_append beqOf s.arena _ v s.liveDict hlive]
    exact habs
  · rw [h2, h1]
    exact hrc

/-- Witness for C4 at a concrete fresh store: value 7 is staged, never
ref-counted, and is gone after commit. -/
theorem unused_new_value_is_removed_witness :
    (wfb (emptyStore Int false) = true ∧ find_index (emptyStore Int false) 7 = none)
    ∧ (find_index
        (BatchUpdater.commit (BatchUpdater.insert (make_batch_updater (emptyStore Int false)) 7).1)
        7 = none
       ∧ get_ref_count
           (BatchUpdater.commit
             (BatchUpdater.insert (make_batch_updater (emptyStore Int false)) 7).1)
           ((BatchUpdater.insert (make_batch_updater (emptyStore Int false)) 7).2) = 0) :=
  ⟨⟨by decide, by decide⟩,
   unused_new_value_is_removed (emptyStore Int false) 7 (by decide) (by decide)⟩

end EnumStoreModel

/-! ## Claim C2 -/

namespace EnumStoreModel

/-- C2: ref-count lifecycle.  Insert a fresh value, then decrement its ref
count to 0 through a batch updater and commit.  Afterwards `find_index` on the
value fails, yet the previously obtained index still resolves through
`get_value` to the original value (the slot is only on hold); after
`transfer_hold_lists(g)` it remains readable through `trim_hold_lists(g)`
(generation not past the retirement tag), and becomes unreadable exactly once
`trim_hold_lists(g + 1)` passes the retirement generation.  The store is
assumed quiescent (empty hold lists) at the start of the scenario. -/
theorem refcount_lifecycle {T : Type} [DecidableEq T] (s : EnumStore T) (v : T) (g : Nat)
    (hwf : wfb s = true) (habs : find_index s v = none)
    (hh1 : s.hold1 = []) (hh2 : s.hold2 = []) :
    find_index (BatchUpdater.commit
        (BatchUpdater.dec_ref_count (make_batch_updater (insert s v).1) (insert s v).2)) v
      = none
    ∧ get_value (BatchUpdater.commit
        (BatchUpdater.dec_ref_count (make_batch_updater (insert s v).1) (insert s v).2))
        ((insert s v).2) = some v
    ∧ get_value (trim_hold_lists (transfer_hold_lists (BatchUpdater.commit
        (BatchUpdater.dec_ref_count (make_batch_updater (insert s v).1) (insert s v).2)) g) g)
        ((insert s v).2) = some v
    ∧ get_value (trim_hold_lists (transfer_hold_lists (BatchUpdater.commit
        (BatchUpdater.dec_ref_count (make_batch_updater (insert s v).1) (insert s v).2)) g)
        (g + 1)) ((insert s v).2) = none := by
  have hlive := wfb_live hwf
  have h1 := insert_eq_not_found s v habs
  set L := s.arena.length with hL
  set s1 := addToDicts (allocEntry s v 1).1 (allocEntry s v 1).2 with hs1
  have h1a : (insert s v).1 = s1 := by rw [h1]
  have h1b : (insert s v).2 = L := by rw [h1]; rfl
  have harena1 : (dec_ref_count_store s1 L).arena = s.arena ++ [⟨v, 0, true⟩] := by
    show modifyAt (fun e => { e with refCount := e.refCount - 1 })
        (s.arena ++ [⟨v, 1, true⟩]) s.arena.length = s.arena ++ [⟨v, 0, true⟩]
    rw [modifyAt_append_length]
    rfl
  have hrc0 : get_ref_count (dec_ref_count_store s1 L) L = 0 := by
    unfold get_ref_count
    rw [harena1, hL,
      show s.arena ++ [(⟨v, 0, true⟩ : Entry T)] = s.arena ++ ⟨v, 0, true⟩ :: [] from rfl,
      nth_append_length]
  have hstage : stage ([] : List Nat) L = [L] := rfl
  have hc : BatchUpdater.commit (BatchUpdater.dec_ref_count (make_batch_updater s1) L)
      = holdEntry (removeFromDicts (dec_ref_count_store s1 L) L) L := by
    unfold BatchUpdater.commit BatchUpdater.dec_ref_count make_batch_updater
    rw [hstage]
    simp only [List.foldl_cons, List.foldl_nil]
    rw [if_pos hrc0]
  rw [h1a, h1b, hc]
  set c := holdEntry (removeFromDicts (dec_ref_count_store s1 L) L) L with hcdef
  have hcarena : c.arena = s.arena ++ [⟨v, 0, true⟩] := harena1
  have hclive : c.liveDict = s.liveDict := by
    show (s.liveDict ++ [L]).filter (fun x => decide (x ≠ L)) = s.liveDict
    exact filter_ne_append_self (fun x hx => by have := hlive x hx; omega)
  have hfind : find_index c v = none := by
    unfold find_index find_index_by
    rw [hcarena, hclive, findIn_arena_append beqOf s.arena _ v s.liveDict hlive]
    exact habs
  have hgv : get_value c L = some v := by
    unfold get_value
    rw [hcarena, hL,
      show s.arena ++ [(⟨v, 0, true⟩ : Entry T)] = s.arena ++ ⟨v, 0, true⟩ :: [] from rfl,
      nth_append_length]
    rfl
  have hthold : (transfer_hold_lists c g).hold2 = [⟨L, 1, g⟩] := by
    show s.hold2 ++ (s.hold1 ++ [L]).map (fun r => (⟨r, 1, g⟩ : Datastore.ElemHold2ListElem))
      = [⟨L, 1, g⟩]
    rw [hh1, hh2]
    rfl
  have htrimkeep : Datastore.trimElemHoldList g [(⟨L, 1, g⟩ : Datastore.ElemHold2ListElem)]
      = ([], [⟨L, 1, g⟩]) := by
    simp [Datastore.trimElemHoldList, Datastore.sgen_nonneg_self g]
  have htrimfree : Datastore.trimElemHoldList (g + 1)
      [(⟨L, 1, g⟩ : Datastore.ElemHold2ListElem)] = ([⟨L, 1, g⟩], []) := by
    simp [Datastore.trimElemHoldList, Datastore.sgen_nonneg_succ_false g]
  have harena_t1 : (trim_hold_lists (transfer_hold_lists c g) g).arena = c.arena := by
    show markDead (transfer_hold_lists c g).arena
        (Datastore.trimElemHoldList g (transfer_hold_lists c g).hold2).1 = c.arena
    rw [hthold, htrimkeep]
    rfl
  have harena_t2 : (trim_hold_lists (transfer_hold_lists c g) (g + 1)).arena
      = s.arena ++ [⟨v, 0, false⟩] := by
    show markDead (transfer_hold_lists c g).arena
        (Datastore.trimElemHoldList (g + 1) (transfer_hold_lists c g).hold2).1
      = s.arena ++ [⟨v, 0, false⟩]
    rw [hthold, htrimfree]
    show modifyAt (fun en => { en with live := false }) c.arena L = s.arena ++ [⟨v, 0, false⟩]
    rw [hcarena, hL, modifyAt_append_length]
  refine ⟨hfind, hgv, ?_, ?_⟩
  · unfold get_value
    rw [harena_t1, hcarena, hL,
      show s.arena ++ [(⟨v, 0, true⟩ : Entry T)] = s.arena ++ ⟨v, 0, true⟩ :: [] from rfl,
      nth_append_length]
    rfl
  · unfold get_value
    rw [harena_t2, hL,
      show s.arena ++ [(⟨v, 0, false⟩ : Entry T)] = s.arena ++ ⟨v, 0, false⟩ :: [] from rfl,
      nth_append_length]
    rfl

/-- Witness for C2 at a concrete fresh store, value and generation. -/
theorem refcount_lifecycle_witness :
    (wfb (emptyStore Int false) = true ∧ find_index (emptyStore Int false) 7 = none
      ∧ (emptyStore Int false).hold1 = [] ∧ (emptyStore Int false).hold2 = [])
    ∧ (find_index (BatchUpdater.commit
        (BatchUpdater.dec_ref_count
          (make_batch_updater (insert (emptyStore Int false) 7).1)
          (insert (emptyStore Int false) 7).2)) 7 = none
      ∧ get_value (BatchUpdater.commit
          (BatchUpdater.dec_ref_count
            (make_batch_updater (insert (emptyStore Int false) 7).1)
            (insert (emptyStore Int false) 7).2))
          ((insert (emptyStore Int false) 7).2) = some 7
      ∧ get_value (trim_hold_lists (transfer_hold_lists (BatchUpdater.commit
          (BatchUpdater.dec_ref_count
            (make_batch_updater (insert (emptyStore Int false) 7).1)
            (insert (emptyStore Int false) 7).2)) 3) 3)
          ((insert (emptyStore Int false) 7).2) = some 7
      ∧ get_value (trim_hold_lists (transfer_hold_lists (BatchUpdater.commit
          (BatchUpdater.dec_ref_count
            (make_batch_updater (insert (emptyStore Int false) 7).1)
            (insert (emptyStore Int false) 7).2)) 3) (3 + 1))
          ((insert (emptyStore Int false) 7).2) = none) :=
  ⟨⟨by decide, by decide, by decide, by decide⟩,
   refcount_lifecycle (emptyStore Int false) 7 3 (by decide) (by decide) rfl rfl⟩

end EnumStoreModel

/-! ## Claim C3 -/

namespace EnumStoreModel

/-- C3 counterexample: in the ordered-tree-plus-hash dictionary variant, a
value inserted after the most recent freeze (here: into a fresh store that was
never frozen) IS returned by `find_frozen_index` before any
`freeze_dictionary` call, because the supplementary hash index is consulted
and it tracks the live dictionary.  This matches the in-repo test
`find_frozen_index_works` (the BTREE_AND_HASH branch asserts
`EXPECT_TRUE(dict.find_frozen_index(...))` before the freeze) and refutes the
claim that the value is not returned until the next freeze in both dictionary
variants. -/
theorem find_frozen_hash_sees_unfrozen_insert :
    find_frozen_index (insert (emptyStore Int true) 3).1 3 = some 0 := by decide

/-- C3 amended: for a well-formed store where the value is in neither the live
nor the reader-visible dictionary, after `insert`: in the ordered-tree-only
variant `find_frozen_index` does not return the new value until the next
`freeze_dictionary`, and returns its index after that freeze; in the
tree-plus-hash variant `find_frozen_index` returns the new value's index
immediately, already before the next freeze (and still after it). -/
theorem find_frozen_visibility {T : Type} [DecidableEq T] (s : EnumStore T) (v : T)
    (hwf : wfb s = true) (hlive : find_index s v = none)
    (hfroz : find_frozen_index s v = none) :
    (s.hashDict = none → find_frozen_index (insert s v).1 v = none)
    ∧ (∀ hd, s.hashDict = some hd → find_frozen_index (insert s v).1 v
        = some ((insert s v).2))
    ∧ find_frozen_index (freeze_dictionary (insert s v).1) v = some ((insert s v).2) := by
  have hlivewf := wfb_live hwf
  have hfrozwf := wfb_frozen hwf
  have h1 := insert_eq_not_found s v hlive
  have h1a : (insert s v).1
      = addToDicts (allocEntry s v 1).1 (allocEntry s v 1).2 := by rw [h1]
  have h1b : (insert s v).2 = s.arena.length := by rw [h1]; rfl
  rw [h1a, h1b]
  refine ⟨?_, ?_, ?_⟩
  · intro hnone
    unfold find_frozen_index find_frozen_index_by
    show (match (addToDicts (allocEntry s v 1).1 (allocEntry s v 1).2).hashDict with
          | some h => findIn beqOf (s.arena ++ [⟨v, 1, true⟩]) v h
          | none => findIn beqOf (s.arena ++ [⟨v, 1, true⟩]) v s.frozenDict)
      = none
    have hhd : (addToDicts (allocEntry s v 1).1 (allocEntry s v 1).2).hashDict = none := by
      show s.hashDict.map (· ++ [s.arena.length]) = none
      rw [hnone]
      rfl
    rw [hhd]
    rw [findIn_arena_append beqOf s.arena _ v s.frozenDict hfrozwf]
    unfold find_frozen_index find_frozen_index_by at hfroz
    rw [hnone] at hfroz
    exact hfroz
  · intro hd hsome
    unfold find_frozen_index find_frozen_index_by
    have hhd : (addToDicts (allocEntry s v 1).1 (allocEntry s v 1).2).hashDict
        = some (hd ++ [s.arena.length]) := by
      show s.hashDict.map (· ++ [s.arena.length]) = some (hd ++ [s.arena.length])
      rw [hsome]
      rfl
    rw [hhd]
    show findIn beqOf (s.arena ++ [⟨v, 1, true⟩]) v (hd ++ [s.arena.length])
      = some s.arena.length
    have hhashwf := wfb_hash hwf hd hsome
    have hn : findIn beqOf (s.arena ++ [⟨v, 1, true⟩]) v hd = none := by
      rw [findIn_arena_append beqOf s.arena _ v hd hhashwf]
      unfold find_frozen_index find_frozen_index_by at hfroz
      rw [hsome] at hfroz
      exact hfroz
    rw [findIn_append_dict_none beqOf _ v hd [s.arena.length] hn]
    exact findIn_last s.arena v 1 true
  · unfold find_frozen_index find_frozen_index_by
    cases hcase : s.hashDict with
    | none =>
        have hhd : (freeze_dictionary (addToDicts (allocEntry s v 1).1
            (allocEntry s v 1).2)).hashDict = none := by
          show s.hashDict.map (· ++ [s.arena.length]) = none
          rw [hcase]
          rfl
        rw [hhd]
        show findIn beqOf (s.arena ++ [⟨v, 1, true⟩]) v (s.liveDict ++ [s.arena.length])
          = some s.arena.length
        have hn : findIn beqOf (s.arena ++ [⟨v, 1, true⟩]) v s.liveDict = none := by
          rw [findIn_arena_append beqOf s.arena _ v s.liveDict hlivewf]
          exact hlive
        rw [findIn_append_dict_none beqOf _ v s.liveDict [s.arena.length] hn]
        exact findIn_last s.arena v 1 true
    | some hd =>
        have hhd : (freeze_dictionary (addToDicts (allocEntry s v 1).1
            (allocEntry s v 1).2)).hashDict = some (hd ++ [s.arena.length]) := by
          show s.hashDict.map (· ++ [s.arena.length]) = some (hd ++ [s.arena.length])
          rw [hcase]
          rfl
        rw [hhd]
        show findIn beqOf (s.arena ++ [⟨v, 1, true⟩]) v (hd ++ [s.arena.length])
          = some s.arena.length
        have hhashwf := wfb_hash hwf hd hcase
        have hn : findIn beqOf (s.arena ++ [⟨v, 1, true⟩]) v hd = none := by
          rw [findIn_arena_append beqOf s.arena _ v hd hhashwf]
          unfold find_frozen_index find_frozen_index_by at hfroz
          rw [hcase] at hfroz
          exact hfroz
        rw [findIn_append_dict_none beqOf _ v hd [s.arena.length] hn]
        exact findIn_last s.arena v 1 true

/-- Witness for C3 (amended) at a concrete fresh tree-only store. -/
theorem find_frozen_visibility_witness :
    (wfb (emptyStore Int false) = true ∧ find_index (emptyStore Int false) 5 = none
      ∧ find_frozen_index (emptyStore Int false) 5 = none
      ∧ (emptyStore Int false).hashDict = none)
    ∧ find_frozen_index (insert (emptyStore Int false) 5).1 5 = none
    ∧ find_frozen_index (freeze_dictionary (insert (emptyStore Int false) 5).1) 5
        = some ((insert (emptyStore Int false) 5).2) := by
  have h := find_frozen_visibility (emptyStore Int false) 5 (by decide) (by decide) (by decide)
  exact ⟨⟨by decide, by decide, by decide, by decide⟩, h.1 rfl, h.2.2⟩

end EnumStoreModel

/-! ## Claims C7 and C8 -/

namespace EnumStoreModel

/-- C7: floating-point enum store lookups use bit-pattern equality, not
IEEE-754 numeric comparison.  After inserting the quiet-NaN bit pattern into a
fresh store, `find_index` with an identical bit pattern succeeds and returns
the inserted entry's index, while a lookup using IEEE-754 numeric equality
(under which NaN is unequal to everything, itself included) would fail on the
very same store. -/
theorem nan_lookup_uses_bit_pattern :
    isNaN32 nanBits32 = true
    ∧ (insert (emptyStore Nat false) nanBits32).2 = 0
    ∧ find_index (insert (emptyStore Nat false) nanBits32).1 nanBits32 = some 0
    ∧ find_index_by float32_eq (insert (emptyStore Nat false) nanBits32).1 nanBits32
        = none := by decide

end EnumStoreModel

namespace FoldedModel

/-- C8: after inserting the strings "", "one", "two", "TWO", "Two", "three"
(given as ASCII byte lists) and freezing the dictionary, the folded-match
query on "Two" returns exactly the three indices whose values are "TWO",
"Two", "two", in that order: the case-insensitive equivalence class of the
query, ordered by the underlying raw comparator ("TWO" < "Two" < "two" in raw
byte order, which the folded-first dictionary order preserves inside the
class). -/
theorem folded_match_ordering :
    find_folded_enums c8_store strTwo = [3, 4, 2]
    ∧ (find_folded_enums c8_store strTwo).map (valueAt c8_store.arena)
        = [strTWO, strTwo, strtwo]
    ∧ (find_folded_enums c8_store strTwo).length = 3 := by decide

end FoldedModel
